import Mathlib

/-!
Shallow embedding of `cloudshell/snmp/snmp_autoload.py` (class `AutoLoad`).

Tables returned by SNMP walks are modelled as ordered association lists from an
integer index to a row.  The physical-entity row keeps the columns the code
reads: `suffix` (the row index as reported in the row itself), the class
column, the containment column and the description column.  The Python code
stores classes as marked strings such as `'port'`; these are modelled by the
closed enumeration `EClass`, with `EClass.other` standing for any class string
that is not a key of the `autolad_parents` dictionary (looking such a class up
in the dictionary raises KeyError, which `autolad_parents` here models by
returning `none`).

Fallible code is modelled in `Except PyErr`: a failed table lookup is
`PyErr.keyError`, a failed tuple unpacking or `int()` conversion is
`PyErr.valueError`, and exhaustion of the recursion fuel — standing for
Python's unbounded recursion on the given input — is `PyErr.recursionError`.
-/

namespace SnmpAutoload

inductive EClass
  | chassis
  | module
  | container
  | port
  | powerSupply
  | other
deriving DecidableEq

structure Entity where
  suffix : Nat
  entPhysicalClass : EClass
  entPhysicalContainedIn : Nat
  entPhysicalDescr : String
deriving DecidableEq

structure IfEntry where
  suffix : Nat
  ifDescr : String
deriving DecidableEq

abbrev EntTable := List (Nat × Entity)

abbrev IfTable := List (Nat × IfEntry)

abbrev HMap := List (Nat × List Nat)

inductive PyErr
  | keyError
  | valueError
  | recursionError
deriving DecidableEq

instance {ε α : Type} [DecidableEq ε] [DecidableEq α] : DecidableEq (Except ε α) := fun x y =>
  match x, y with
  | Except.error a, Except.error b =>
    if h : a = b then Decidable.isTrue (by subst h; rfl)
    else Decidable.isFalse (by intro hh; cases hh; exact h rfl)
  | Except.error _, Except.ok _ => Decidable.isFalse (by intro hh; cases hh)
  | Except.ok _, Except.error _ => Decidable.isFalse (by intro hh; cases hh)
  | Except.ok a, Except.ok b =>
    if h : a = b then Decidable.isTrue (by subst h; rfl)
    else Decidable.isFalse (by intro hh; cases hh; exact h rfl)

/-- Lookup in an ordered table (Python `table[k]`, returning `none` where the
Python code would raise KeyError). -/
def alGet {α : Type} (l : List (Nat × α)) (k : Nat) : Option α :=
  (l.find? (fun pr => pr.1 == k)).map Prod.snd

/-- Assignment `table[k] = v` on an ordered mapping: an existing key keeps its
position, a new key is appended at the end (OrderedDict semantics). -/
def alSet {α : Type} (l : List (Nat × α)) (k : Nat) (v : α) : List (Nat × α) :=
  if (alGet l k).isSome then l.map (fun pr => if pr.1 == k then (k, v) else pr)
  else l ++ [(k, v)]

/-- The `autolad_parents` class dictionary of `AutoLoad`.  A class that is not
a key of the dictionary gives `none` (KeyError on lookup). -/
def autolad_parents : EClass → Option (List EClass)
  | EClass.port => some [EClass.module, EClass.chassis]
  | EClass.powerSupply => some [EClass.chassis]
  | EClass.module => some [EClass.chassis]
  | EClass.container => some [EClass.chassis]
  | EClass.chassis => some []
  | EClass.other => none

/-- Modelled from the spec: `QualiMibTable.filter_by_column('Class', c)` lives
in `quali_snmp`, which is not part of the sources; per the spec it returns the
ordered subset of rows whose class column equals the given value. -/
def filter_by_class (tbl : EntTable) (c : EClass) : EntTable :=
  tbl.filter (fun pr => decide (pr.2.entPhysicalClass = c))

/-- Method `AutoLoad.get_parent`: look up the entity referenced by
`entPhysicalContainedIn` (KeyError if the index is absent), then return it if
its class is among the valid autoload parents of the subject's class, else
climb from the referenced entity.  The recursion of the source is unbounded;
the fuel argument only converts an infinite climb into
`PyErr.recursionError`. -/
def get_parent : Nat → EntTable → Entity → Except PyErr Entity
  | 0, _, _ => Except.error PyErr.recursionError
  | Nat.succ n, tbl, e =>
    match alGet tbl e.entPhysicalContainedIn with
    | none => Except.error PyErr.keyError
    | some parent =>
      match autolad_parents e.entPhysicalClass with
      | none => Except.error PyErr.keyError
      | some cs =>
        if parent.entPhysicalClass ∈ cs then Except.ok parent
        else get_parent n tbl parent

/-- Method `AutoLoad.get_parents`: append the subject to the accumulated list; a
chassis returns the list, anything else recurses from its `get_parent`. -/
def get_parents : Nat → EntTable → Entity → List Entity → Except PyErr (List Entity)
  | 0, _, _, _ => Except.error PyErr.recursionError
  | Nat.succ n, tbl, e, acc =>
    if e.entPhysicalClass = EClass.chassis then Except.ok (acc ++ [e])
    else
      match get_parent n tbl e with
      | Except.error err => Except.error err
      | Except.ok p => get_parents n tbl p (acc ++ [e])

def dfltEntity : Entity := ⟨0, EClass.other, 0, ""⟩

/-- One `hierarchy` update of `get_hierarchy`:
`if not hierarchy.get(k): hierarchy[k] = []` followed by
`hierarchy[k].append(i)`.  A present-but-empty list is reset to `[]` and then
appended to, which coincides with appending to the empty list, so only the
present/absent distinction matters. -/
def hmapAppend (h : HMap) (k i : Nat) : HMap :=
  match alGet h k with
  | none => h ++ [(k, [i])]
  | some l => alSet h k (l ++ [i])

/-- The inner loop `for p in range(len(parents)-1, 0, -1)` of `get_hierarchy`:
the second argument is the loop variable `p`, counting down to 1; at each step
the element at position `p` is recorded as the parent of the element at
position `p-1`. -/
def loop_pairs (ps : List Entity) : HMap → Nat → HMap
  | h, 0 => h
  | h, Nat.succ q =>
    loop_pairs ps (hmapAppend h (ps.getD (q + 1) dfltEntity).suffix (ps.getD q dfltEntity).suffix) q

/-- The outer loop of `get_hierarchy` over the selected port and power-supply
entities; a failing `get_parents` aborts the whole build. -/
def hier_leaves_loop (fuel : Nat) (tbl : EntTable) : List Entity → HMap → Except PyErr HMap
  | [], h => Except.ok h
  | e :: rest, h =>
    match get_parents fuel tbl e [] with
    | Except.error err => Except.error err
    | Except.ok ps => hier_leaves_loop fuel tbl rest (loop_pairs ps h (ps.length - 1))

/-- Method `AutoLoad.get_hierarchy` as a pure function of an entity-table snapshot.
The Python source iterates `dict(ports.items() + pss.items()).values()`; for a
table with unique indices this is the two filtered row sequences one after the
other (only the hash-driven visiting order differs, and the resulting map does
not depend on it beyond the ordering inside lists).  The final
`list(set(children))` deduplication is modelled by `List.dedup`. -/
def get_hierarchy_core (fuel : Nat) (tbl : EntTable) : Except PyErr HMap :=
  let ports := filter_by_class tbl EClass.port
  let pss := filter_by_class tbl EClass.powerSupply
  match hier_leaves_loop fuel tbl ((ports ++ pss).map Prod.snd) [] with
  | Except.error err => Except.error err
  | Except.ok h => Except.ok (h.map (fun pr => (pr.1, pr.2.dedup)))

/-! ## Description matching (`re.findall` and `re.search` as used by the code) -/

/-- Worker for `re.findall('\d+', s)`: the second argument holds the digit run
being read, in reverse. -/
def findall_go : List Char → List Char → List (List Char)
  | [], cur => if cur.isEmpty then [] else [cur.reverse]
  | c :: rest, cur =>
    if c.isDigit then findall_go rest (c :: cur)
    else if cur.isEmpty then findall_go rest []
    else cur.reverse :: findall_go rest []

/-- The result of `re.findall('\d+', s)`: the maximal runs of digit characters of `s`, in
order. -/
def findall_d (s : String) : List (List Char) := findall_go s.toList []

/-- Does `needle` occur at the very start of the second list? -/
def listStarts : List Char → List Char → Bool
  | [], _ => true
  | _ :: _, [] => false
  | a :: as, b :: bs => a == b && listStarts as bs

/-- The pattern `.*lit` matched at the current position (`lit` all literal
characters, as the digit/slash literals the code concatenates after `'.*'`
are): either `lit` starts here, or `.` consumes one non-newline character and
the match is retried one position further. -/
def reDotStarAt (lit : List Char) : List Char → Bool
  | [] => listStarts lit []
  | c :: rest => listStarts lit (c :: rest) || (!(c == '\n') && reDotStarAt lit rest)

/-- Search: `re.search` tries the pattern at every start position of the subject. -/
def re_search_go (lit : List Char) : List Char → Bool
  | [] => reDotStarAt lit []
  | c :: rest => reDotStarAt lit (c :: rest) || re_search_go lit rest

/-- The result of `re.search('.*' + lit, s)` for a pattern whose tail `lit` is all literal
characters, as built by `_descr_based_mapping`. -/
def re_search (lit : List Char) (s : String) : Bool := re_search_go lit s.toList

/-- Does `needle` occur anywhere in the second list as a contiguous run?  This
is the independent yardstick the unanchored search is compared against. -/
def listHasSub (needle : List Char) : List Char → Bool
  | [] => needle.isEmpty
  | c :: rest => listStarts needle (c :: rest) || listHasSub needle rest

/-! ## The AutoLoad object: device, caches and remote fetches -/

def entTableName : String := "entPhysicalTable"

def ifTableName : String := "ifTable"

def aliasTableName : String := "entAliasMappingTable"

/-- The tables the external SNMP collaborator would return, one per walked
table name (the walk itself is the out-of-scope transport). -/
structure Device where
  entPhysicalWalk : EntTable
  ifWalk : IfTable
  entAliasWalk : List (Nat × String)
deriving DecidableEq

/-- The mutable attributes of an `AutoLoad` object: the device behind
`self.snmp`, the two lazily populated table attributes, and the trace of
remote fetches performed so far (each `snmp.walk` appends the walked table's
name). -/
structure AutoLoadState where
  snmp : Device
  entCache : Option EntTable
  ifCache : Option IfTable
  walks : List String
deriving DecidableEq

/-- Constructor `AutoLoad.__init__`: both table attributes start out as `None`. -/
def initState (d : Device) : AutoLoadState := ⟨d, none, none, []⟩

/-- The `entPhysicalTable` property: a populated attribute is returned as is;
otherwise the table is walked once and the attribute set. -/
def entPhysicalTable (s : AutoLoadState) : EntTable × AutoLoadState :=
  match s.entCache with
  | some t => (t, s)
  | none =>
    (s.snmp.entPhysicalWalk,
      { s with entCache := some s.snmp.entPhysicalWalk, walks := s.walks ++ [entTableName] })

/-- The `ifTable` property, same shape as `entPhysicalTable`. -/
def ifTable (s : AutoLoadState) : IfTable × AutoLoadState :=
  match s.ifCache with
  | some t => (t, s)
  | none =>
    (s.snmp.ifWalk, { s with ifCache := some s.snmp.ifWalk, walks := s.walks ++ [ifTableName] })

/-! ## Mapping -/

/-- The inner loop of `_descr_based_mapping` over `self.ifTable.values()`.
The `continue` closing the loop body in the source is its last statement, so
it never cuts the scan short: every matching interface performs the
assignment, and a later match overwrites an earlier one. -/
def scan_ifaces (m p : List Char) (portIdx : Nat) : List IfEntry → List (Nat × Nat) → List (Nat × Nat)
  | [], mp => mp
  | itf :: rest, mp =>
    scan_ifaces m p portIdx rest
      (if re_search (m ++ '/' :: p) itf.ifDescr then alSet mp portIdx itf.suffix else mp)

/-- The outer loop of `_descr_based_mapping` over the port rows.  The tuple
unpacking `module_index, port_index = re.findall('\d+', descr)` raises
ValueError unless the description holds exactly two digit runs; the loop
accesses the `ifTable` property anew for each port. -/
def descr_ports_loop : List Entity → List (Nat × Nat) × AutoLoadState → Except PyErr (List (Nat × Nat) × AutoLoadState)
  | [], acc => Except.ok acc
  | port :: rest, acc =>
    match findall_d port.entPhysicalDescr with
    | [m, p] =>
      let pr := ifTable acc.2
      descr_ports_loop rest (scan_ifaces m p port.suffix (pr.1.map Prod.snd) acc.1, pr.2)
    | _ => Except.error PyErr.valueError

/-- Method `AutoLoad._descr_based_mapping`. -/
def descr_based_mapping (s : AutoLoadState) : Except PyErr (List (Nat × Nat) × AutoLoadState) :=
  let pr := entPhysicalTable s
  descr_ports_loop ((filter_by_class pr.1 EClass.port).map Prod.snd) ([], pr.2)

/-- Worker for `str.split('.')`; the second argument holds the current piece in
reverse. -/
def splitDots_go : List Char → List Char → List (List Char)
  | [], cur => [cur.reverse]
  | c :: rest, cur =>
    if c == '.' then cur.reverse :: splitDots_go rest [] else splitDots_go rest (c :: cur)

/-- The value of `ident.split('.')[-1]`: the piece after the last dot (`split` always
returns at least one piece). -/
def lastSplitDot (s : String) : List Char := (splitDots_go s.toList []).getLastD []

/-- Conversion `int()` restricted to the strings this code feeds it: a non-empty all-digit
string parses to its value, anything else raises ValueError.  (CPython's
`int` also accepts signs and surrounding whitespace, which never occur in the
identifiers handled here.) -/
def pyIntDigits (s : List Char) : Except PyErr Nat :=
  if s.isEmpty || !s.all Char.isDigit then Except.error PyErr.valueError
  else Except.ok (s.foldl (fun n c => n * 10 + (c.toNat - 48)) 0)

/-- The alias branch of `get_mapping`: for each port index (a key of the
filtered table) look its row up in the walked alias table — KeyError when the
port has no row there — and record the numeric tail of the identifier. -/
def alias_ports_loop (aT : List (Nat × String)) : List Nat → List (Nat × Nat) → Except PyErr (List (Nat × Nat))
  | [], mp => Except.ok mp
  | k :: rest, mp =>
    match alGet aT k with
    | none => Except.error PyErr.keyError
    | some ident =>
      match pyIntDigits (lastSplitDot ident) with
      | Except.error err => Except.error err
      | Except.ok n => alias_ports_loop aT rest (alSet mp k n)

/-- Method `AutoLoad.get_mapping`: walk `entAliasMappingTable` afresh (this walk is
not cached by any attribute), then use the alias branch when the walked table
is non-empty and fall back to `_descr_based_mapping` otherwise. -/
def get_mapping (s : AutoLoadState) : Except PyErr (List (Nat × Nat) × AutoLoadState) :=
  let s1 : AutoLoadState := { s with walks := s.walks ++ [aliasTableName] }
  if s.snmp.entAliasWalk.isEmpty then descr_based_mapping s1
  else
    let pr := entPhysicalTable s1
    match alias_ports_loop s.snmp.entAliasWalk ((filter_by_class pr.1 EClass.port).map Prod.fst) [] with
    | Except.error err => Except.error err
    | Except.ok mp => Except.ok (mp, pr.2)

/-- Method `AutoLoad.get_hierarchy` on the object: the first access to the
`entPhysicalTable` property fixes the snapshot (later accesses inside
`get_parent` hit the now-populated attribute), after which the build is the
pure `get_hierarchy_core` of that snapshot. -/
def get_hierarchy (fuel : Nat) (s : AutoLoadState) : Except PyErr (HMap × AutoLoadState) :=
  let pr := entPhysicalTable s
  match get_hierarchy_core fuel pr.1 with
  | Except.error err => Except.error err
  | Except.ok h => Except.ok (h, pr.2)

/-! ## Snapshot views of the lazily populated attributes -/

/-- The entity table an access to the `entPhysicalTable` property returns:
the cached attribute when populated, the walked table otherwise. -/
def entSnapshot (s : AutoLoadState) : EntTable :=
  match s.entCache with
  | some t => t
  | none => s.snmp.entPhysicalWalk

/-- The interface table an access to the `ifTable` property returns. -/
def ifSnapshot (s : AutoLoadState) : IfTable :=
  match s.ifCache with
  | some t => t
  | none => s.snmp.ifWalk

/-! ## Concrete fixtures used by the witnesses and counterexamples -/

def entC1d : Entity := ⟨1, EClass.port, 99, "x"⟩

def tblC1d : EntTable := [(1, entC1d)]

def entC1a : Entity := ⟨1, EClass.port, 2, "a"⟩

def entC1b : Entity := ⟨2, EClass.container, 1, "b"⟩

def tblC1c : EntTable := [(1, entC1a), (2, entC1b)]

def devC2 : Device :=
  ⟨[(3, ⟨3, EClass.port, 1, "bad"⟩), (4, ⟨4, EClass.port, 1, "1/2"⟩)],
   [(10, ⟨10, "Gi1/2"⟩)], []⟩

def devC3 : Device := ⟨[(3, ⟨3, EClass.port, 1, "1/2"⟩)], [(10, ⟨10, "Gi1/2"⟩), (20, ⟨20, "Te1/2"⟩)], []⟩

def stC3 : AutoLoadState :=
  ⟨devC3, some devC3.entPhysicalWalk, some devC3.ifWalk, [entTableName, ifTableName]⟩

def devC4 : Device := ⟨[(3, ⟨3, EClass.port, 1, "1/2"⟩)], [(10, ⟨10, "Gi1/23"⟩)], []⟩

def stC4 : AutoLoadState :=
  ⟨devC4, some devC4.entPhysicalWalk, some devC4.ifWalk, [entTableName, ifTableName]⟩

def devC5 : Device := ⟨[(3, ⟨3, EClass.port, 1, "1/2"⟩)], [], [(7, "1.3.6.1.48")]⟩

def devC5x : Device :=
  ⟨[(3, ⟨3, EClass.port, 1, "1/2"⟩), (7, ⟨7, EClass.port, 1, "8/9"⟩)],
   [(10, ⟨10, "Gi1/2"⟩)], []⟩

def stC5x : AutoLoadState :=
  ⟨devC5x, some devC5x.entPhysicalWalk, some devC5x.ifWalk, [entTableName, ifTableName]⟩

def devC6 : Device := ⟨[], [], []⟩

def stC6a : AutoLoadState := ⟨devC6, some [], none, [aliasTableName, entTableName]⟩

def stC6b : AutoLoadState := ⟨devC6, some [], none, [aliasTableName, entTableName, aliasTableName]⟩

def stC6w : AutoLoadState := ⟨devC6, some [], some [], []⟩

def entC7c : Entity := ⟨1, EClass.chassis, 0, "ch"⟩

def entC7m : Entity := ⟨2, EClass.module, 1, "mod"⟩

def entC7p : Entity := ⟨3, EClass.port, 2, "1/2"⟩

def tblC7 : EntTable := [(1, entC7c), (2, entC7m), (3, entC7p)]

def entC8c : Entity := ⟨1, EClass.chassis, 0, "ch"⟩

def entC8m : Entity := ⟨2, EClass.module, 1, "mod"⟩

def entC8p : Entity := ⟨3, EClass.port, 2, "1/2"⟩

def devC8 : Device := ⟨[(1, entC8c), (2, entC8m), (3, entC8p)], [], []⟩

def stC8 : AutoLoadState := ⟨devC8, some devC8.entPhysicalWalk, none, [entTableName]⟩

def entC9 : Entity := ⟨5, EClass.chassis, 77, "box"⟩

def entC10c : Entity := ⟨1, EClass.chassis, 0, "ch"⟩

def entC10m : Entity := ⟨2, EClass.module, 1, "mod"⟩

def entC10p : Entity := ⟨3, EClass.port, 2, "1/2"⟩

def entC10s : Entity := ⟨4, EClass.powerSupply, 1, "psu"⟩

def tblC10 : EntTable := [(1, entC10c), (2, entC10m), (3, entC10p), (4, entC10s)]

/-! ## Lemmas about the description search -/

lemma listStarts_nil (lit : List Char) : listStarts lit [] = lit.isEmpty := by
  cases lit <;> rfl

lemma reDotStarAt_hasSub (lit : List Char) :
    ∀ s, reDotStarAt lit s = true → listHasSub lit s = true := by
  intro s
  induction s with
  | nil => intro h; simpa [reDotStarAt, listHasSub, listStarts_nil] using h
  | cons c rest ih =>
    intro h
    simp only [reDotStarAt, Bool.or_eq_true, Bool.and_eq_true] at h
    simp only [listHasSub, Bool.or_eq_true]
    rcases h with h | ⟨_, hd⟩
    · exact Or.inl h
    · exact Or.inr (ih hd)

lemma re_search_go_eq (lit : List Char) : ∀ s, re_search_go lit s = listHasSub lit s := by
  intro s
  induction s with
  | nil => simp [re_search_go, reDotStarAt, listHasSub, listStarts_nil]
  | cons c rest ih =>
    show (reDotStarAt lit (c :: rest) || re_search_go lit rest) = listHasSub lit (c :: rest)
    rw [ih]
    show (reDotStarAt lit (c :: rest) || listHasSub lit rest) =
      (listStarts lit (c :: rest) || listHasSub lit rest)
    cases hA : listStarts lit (c :: rest) with
    | true => simp [reDotStarAt, hA]
    | false =>
      simp only [reDotStarAt, hA, Bool.false_or]
      cases hd : reDotStarAt lit rest with
      | true => simp [reDotStarAt_hasSub lit rest hd]
      | false => simp

/-! ## Lemmas about the lazily populated attributes -/

lemma entPhysicalTable_fst (s : AutoLoadState) : (entPhysicalTable s).1 = entSnapshot s := by
  cases h : s.entCache <;> simp [entPhysicalTable, entSnapshot, h]

lemma ifTable_fst (s : AutoLoadState) : (ifTable s).1 = ifSnapshot s := by
  cases h : s.ifCache <;> simp [ifTable, ifSnapshot, h]

lemma ifTable_snd_ifSnapshot (s : AutoLoadState) : ifSnapshot (ifTable s).2 = ifSnapshot s := by
  cases h : s.ifCache <;> simp [ifTable, ifSnapshot, h]

lemma entPhysicalTable_snd_entSnapshot (s : AutoLoadState) :
    entSnapshot (entPhysicalTable s).2 = entSnapshot s := by
  cases h : s.entCache <;> simp [entPhysicalTable, entSnapshot, h]

lemma entPhysicalTable_snd_ifSnapshot (s : AutoLoadState) :
    ifSnapshot (entPhysicalTable s).2 = ifSnapshot s := by
  cases h : s.entCache <;> simp [entPhysicalTable, ifSnapshot, h]

lemma ifTable_walks (s : AutoLoadState) :
    (ifTable s).2.walks = s.walks ∨ (ifTable s).2.walks = s.walks ++ [ifTableName] := by
  cases h : s.ifCache
  · exact Or.inr (by simp [ifTable, h])
  · exact Or.inl (by simp [ifTable, h])

lemma entPhysicalTable_walks (s : AutoLoadState) :
    (entPhysicalTable s).2.walks = s.walks ∨
    (entPhysicalTable s).2.walks = s.walks ++ [entTableName] := by
  cases h : s.entCache
  · exact Or.inr (by simp [entPhysicalTable, h])
  · exact Or.inl (by simp [entPhysicalTable, h])

lemma entPhysicalTable_idem (s : AutoLoadState) :
    entPhysicalTable ((entPhysicalTable s).2) = entPhysicalTable s := by
  cases h : s.entCache <;> simp [entPhysicalTable, h]

/-! ## Claim theorems -/

lemma descr_ports_loop_err :
    ∀ (ports : List Entity) (acc : List (Nat × Nat) × AutoLoadState),
      (∃ e ∈ ports, (findall_d e.entPhysicalDescr).length ≠ 2) →
      descr_ports_loop ports acc = Except.error PyErr.valueError := by
  intro ports
  induction ports with
  | nil =>
    intro acc h
    rcases h with ⟨e, he, _⟩
    cases he
  | cons port rest ih =>
    intro acc h
    rcases h with ⟨e, he, hlen⟩
    rcases List.mem_cons.mp he with rfl | hmem
    · rcases hfa : findall_d e.entPhysicalDescr with _ | ⟨m, _ | ⟨p, _ | ⟨x, xs⟩⟩⟩
      · simp [descr_ports_loop, hfa]
      · simp [descr_ports_loop, hfa]
      · exact absurd (by simp [hfa]) hlen
      · simp [descr_ports_loop, hfa]
    · rcases hfa : findall_d port.entPhysicalDescr with _ | ⟨m, _ | ⟨p, _ | ⟨x, xs⟩⟩⟩
      · simp [descr_ports_loop, hfa]
      · simp [descr_ports_loop, hfa]
      · simp only [descr_ports_loop, hfa]
        exact ih _ ⟨e, hmem, hlen⟩
      · simp [descr_ports_loop, hfa]

/-- Claim C2 (counterexample): on a device whose first port has description
`"bad"` (no numeric substring) and whose second port is well formed,
`_descr_based_mapping` aborts the whole run with a ValueError from the tuple
unpacking; the second port is never mapped, where the claim says the
malformed port alone is skipped and the rest completes. -/
theorem C2_counterexample :
    descr_based_mapping (initState devC2) = Except.error PyErr.valueError := rfl

/-- Claim C2 (amended): a port whose description does not contain exactly two
numeric substrings raises an uncaught ValueError that aborts the whole
descriptor-based mapping; no mapping is returned for any port. -/
theorem C2_malformed_port_aborts (s : AutoLoadState)
    (h : ∃ e ∈ (filter_by_class (entSnapshot s) EClass.port).map Prod.snd,
        (findall_d e.entPhysicalDescr).length ≠ 2) :
    descr_based_mapping s = Except.error PyErr.valueError := by
  show descr_ports_loop ((filter_by_class (entPhysicalTable s).1 EClass.port).map Prod.snd)
    ([], (entPhysicalTable s).2) = Except.error PyErr.valueError
  rw [entPhysicalTable_fst]
  exact descr_ports_loop_err _ _ h

/-- Witness for the amended C2 on the concrete two-port device. -/
theorem C2_malformed_port_aborts_witness :
    (∃ e ∈ (filter_by_class (entSnapshot (initState devC2)) EClass.port).map Prod.snd,
        (findall_d e.entPhysicalDescr).length ≠ 2) ∧
    descr_based_mapping (initState devC2) = Except.error PyErr.valueError :=
  ⟨by decide, C2_malformed_port_aborts (initState devC2) (by decide)⟩

lemma c1_cyc_pair : ∀ n, get_parent n tblC1c entC1a = Except.error PyErr.recursionError ∧
    get_parent n tblC1c entC1b = Except.error PyErr.recursionError := by
  intro n
  induction n with
  | zero => exact ⟨rfl, rfl⟩
  | succ n ih =>
    refine ⟨?_, ?_⟩
    · show get_parent n tblC1c entC1b = Except.error PyErr.recursionError
      exact ih.2
    · show get_parent n tblC1c entC1a = Except.error PyErr.recursionError
      exact ih.1

/-- Claim C1 (code_bug): ancestor resolution does not report malformed
containment graphs as a distinct topology error.  On a table whose only entity
points at an absent index, `get_parent` raises a plain KeyError for every
amount of recursion fuel; on a two-entity containment cycle it recurses
forever — here, it exhausts any fuel — instead of detecting the revisit.  No
topology-error construct exists anywhere in the code. -/
theorem C1_malformed_graph_not_topology_error : ∀ n : Nat,
    get_parent (n + 1) tblC1d entC1d = Except.error PyErr.keyError ∧
    get_parent n tblC1c entC1a = Except.error PyErr.recursionError := by
  intro n
  exact ⟨rfl, (c1_cyc_pair n).1⟩

/-- Claim C3 (code_bug): the recorded interface for a well-formed port is the
LAST matching interface, not the first.  Port 3 has tokens 1 and 2; both
interfaces 10 and 20 match the expression, and the returned mapping holds 20.
The `continue` ending the loop body in the source is a no-op where a `break`
(stop at the first match, as the spec states) was evidently intended. -/
theorem C3_records_last_match :
    descr_based_mapping (initState devC3) = Except.ok ([(3, 20)], stC3) := rfl

/-- Claim C5 (counterexample): under alias-based mapping a port with no entry
in the alias table is not silently omitted — it raises a KeyError that aborts
`get_mapping`.  The device has port 3 and a non-empty alias table whose only
row is for index 7. -/
theorem C5_counterexample :
    get_mapping (initState devC5) = Except.error PyErr.keyError := rfl

/-- Claim C4 (counterexample): the match expression is not anchored at the end
of the interface description.  Port 3 has tokens 1 and 2, the only interface
description is `"Gi1/23"` — it merely contains `"1/2"` followed by a further
character — and yet the mapping records interface 10 for it, where the claim
says the expression must not be satisfied. -/
theorem C4_counterexample :
    descr_based_mapping (initState devC4) = Except.ok ([(3, 10)], stC4) := rfl

/-- Claim C4 (amended): the expression `'.*' + m + '/' + p` under `re.search`
is satisfied exactly by the interface descriptions that contain `m/p` anywhere
as a contiguous substring; nothing requires the description to end there. -/
theorem C4_match_is_containment (m p : List Char) (s : String) :
    re_search (m ++ '/' :: p) s = listHasSub (m ++ '/' :: p) s.toList :=
  re_search_go_eq (m ++ '/' :: p) s.toList

lemma count_if_alias : ([ifTableName] : List String).count aliasTableName = 0 := by decide

lemma count_ent_alias : ([entTableName] : List String).count aliasTableName = 0 := by decide

lemma count_alias_alias : ([aliasTableName] : List String).count aliasTableName = 1 := by decide

lemma descr_ports_loop_count :
    ∀ (ports : List Entity) (acc : List (Nat × Nat) × AutoLoadState)
      (mp : List (Nat × Nat)) (s' : AutoLoadState),
      descr_ports_loop ports acc = Except.ok (mp, s') →
      s'.walks.count aliasTableName = acc.2.walks.count aliasTableName := by
  intro ports
  induction ports with
  | nil =>
    intro acc mp s' h
    cases h
    rfl
  | cons port rest ih =>
    intro acc mp s' h
    rcases hfa : findall_d port.entPhysicalDescr with _ | ⟨m, _ | ⟨p, _ | ⟨x, xs⟩⟩⟩ <;>
      simp only [descr_ports_loop, hfa] at h
    · cases h
    · cases h
    · have hc := ih _ mp s' h
      rcases ifTable_walks acc.2 with hw | hw <;> rw [hw] at hc
      · exact hc
      · rw [hc, List.count_append, count_if_alias, Nat.add_zero]
    · cases h

lemma get_mapping_count (s : AutoLoadState) (mp : List (Nat × Nat)) (s' : AutoLoadState)
    (h : get_mapping s = Except.ok (mp, s')) :
    s'.walks.count aliasTableName = s.walks.count aliasTableName + 1 := by
  have hplus : (s.walks ++ [aliasTableName]).count aliasTableName =
      s.walks.count aliasTableName + 1 := by
    rw [List.count_append, count_alias_alias]
  cases hie : s.snmp.entAliasWalk.isEmpty <;> simp only [get_mapping, hie] at h
  · rcases hal : alias_ports_loop s.snmp.entAliasWalk
        ((filter_by_class (entPhysicalTable { s with walks := s.walks ++ [aliasTableName] }).1
          EClass.port).map Prod.fst) [] with err | mp0 <;> rw [hal] at h
    · cases h
    · cases h
      rcases entPhysicalTable_walks { s with walks := s.walks ++ [aliasTableName] } with hw | hw <;>
        rw [hw]
      · exact hplus
      · rw [List.count_append, count_ent_alias, Nat.add_zero]
        exact hplus
  · have hc := descr_ports_loop_count _ _ mp s' h
    rcases entPhysicalTable_walks { s with walks := s.walks ++ [aliasTableName] } with hw | hw <;>
      rw [hw] at hc
    · rw [hc]
      exact hplus
    · rw [hc, List.count_append, count_ent_alias, Nat.add_zero]
      exact hplus

/-- Claim C6 (counterexample): two successive `get_mapping` calls on the same
object each walk `entAliasMappingTable` afresh — after the second call the
fetch trace holds that table's name twice, where the claim allows at most one
remote fetch per table per session. -/
theorem C6_counterexample :
    get_mapping (initState devC6) = Except.ok ([], stC6a) ∧
    get_mapping stC6a = Except.ok ([], stC6b) ∧
    stC6b.walks.count aliasTableName = 2 :=
  ⟨rfl, rfl, by decide⟩

/-- Claim C6 (amended): `entPhysicalTable` and `ifTable` are fetched at most
once per object — an access with a populated attribute returns it unchanged
with no new walk, and any access leaves the attribute populated — but the
alias-mapping table is not cached: every successful `get_mapping` call
performs exactly one fresh walk of it. -/
theorem C6_caching_except_alias :
    (∀ (s : AutoLoadState) (t : EntTable), s.entCache = some t → entPhysicalTable s = (t, s))
  ∧ (∀ (s : AutoLoadState) (t : IfTable), s.ifCache = some t → ifTable s = (t, s))
  ∧ (∀ s : AutoLoadState, ((entPhysicalTable s).2.entCache).isSome = true ∧
      ((ifTable s).2.ifCache).isSome = true)
  ∧ (∀ (s : AutoLoadState) (mp : List (Nat × Nat)) (s' : AutoLoadState),
      get_mapping s = Except.ok (mp, s') →
      s'.walks.count aliasTableName = s.walks.count aliasTableName + 1) := by
  refine ⟨?_, ?_, ?_, ?_⟩
  · intro s t h
    simp [entPhysicalTable, h]
  · intro s t h
    simp [ifTable, h]
  · intro s
    constructor
    · cases h : s.entCache <;> simp [entPhysicalTable, h]
    · cases h : s.ifCache <;> simp [ifTable, h]
  · exact get_mapping_count

/-- Witness for the amended C6: cache hits on concrete populated states, and
the alias-walk count after a concrete successful `get_mapping`. -/
theorem C6_caching_except_alias_witness :
    entPhysicalTable stC6a = ([], stC6a) ∧ ifTable stC6w = ([], stC6w) ∧
    stC6b.walks.count aliasTableName = stC6a.walks.count aliasTableName + 1 :=
  ⟨C6_caching_except_alias.1 stC6a [] rfl,
   C6_caching_except_alias.2.1 stC6w [] rfl,
   C6_caching_except_alias.2.2.2 stC6a [] stC6b rfl⟩

lemma alGet_mem {α : Type} (l : List (Nat × α)) (k : Nat) (v : α) (h : alGet l k = some v) :
    (k, v) ∈ l := by
  unfold alGet at h
  rcases hf : l.find? (fun pr => pr.1 == k) with _ | pr0 <;> rw [hf] at h
  · cases h
  · rcases pr0 with ⟨k0, v0⟩
    have hmem := List.mem_of_find?_eq_some hf
    have hp := List.find?_some hf
    replace h : some v0 = some v := h
    cases h
    have hk : k0 = k := eq_of_beq (by simpa using hp)
    subst hk
    exact hmem

lemma get_parent_ok : ∀ (n : Nat) (tbl : EntTable) (e p : Entity),
    get_parent n tbl e = Except.ok p →
    (∃ j, (j, p) ∈ tbl) ∧
      (p.entPhysicalClass = EClass.module ∨ p.entPhysicalClass = EClass.chassis) := by
  intro n
  induction n with
  | zero => intro tbl e p h; cases h
  | succ n ih =>
    intro tbl e p h
    simp only [get_parent] at h
    rcases hga : alGet tbl e.entPhysicalContainedIn with _ | parent <;> rw [hga] at h
    · cases h
    · rcases hap : autolad_parents e.entPhysicalClass with _ | cs <;> rw [hap] at h
      · cases h
      · replace h : (if parent.entPhysicalClass ∈ cs then Except.ok parent
            else get_parent n tbl parent) = Except.ok p := h
        by_cases hmem : parent.entPhysicalClass ∈ cs
        · rw [if_pos hmem] at h
          cases h
          refine ⟨⟨e.entPhysicalContainedIn, alGet_mem _ _ _ hga⟩, ?_⟩
          cases hcl : e.entPhysicalClass <;> rw [hcl] at hap <;>
            simp only [autolad_parents, Option.some.injEq] at hap
          · subst hap
            exact absurd hmem (List.not_mem_nil _)
          · subst hap
            exact Or.inr (List.eq_of_mem_singleton hmem)
          · subst hap
            exact Or.inr (List.eq_of_mem_singleton hmem)
          · subst hap
            rcases List.mem_cons.mp hmem with h1 | h1
            · exact Or.inl h1
            · exact Or.inr (List.eq_of_mem_singleton h1)
          · subst hap
            exact Or.inr (List.eq_of_mem_singleton hmem)
          · exact Option.noConfusion hap
        · rw [if_neg hmem] at h
          exact ih tbl parent p h

lemma get_parents_ok : ∀ (n : Nat) (tbl : EntTable) (e : Entity) (acc l : List Entity),
    get_parents n tbl e acc = Except.ok l →
    ∃ rest, l = acc ++ e :: rest ∧
      (∀ x ∈ rest, (∃ j, (j, x) ∈ tbl) ∧
        (x.entPhysicalClass = EClass.module ∨ x.entPhysicalClass = EClass.chassis)) ∧
      (∃ c, (e :: rest).getLast? = some c ∧ c.entPhysicalClass = EClass.chassis) ∧
      (e.entPhysicalClass ≠ EClass.chassis → rest ≠ []) := by
  intro n
  induction n with
  | zero => intro tbl e acc l h; cases h
  | succ n ih =>
    intro tbl e acc l h
    simp only [get_parents] at h
    by_cases hc : e.entPhysicalClass = EClass.chassis
    · rw [if_pos hc] at h
      cases h
      exact ⟨[], rfl, by simp, ⟨e, by simp, hc⟩, fun hne => absurd hc hne⟩
    · rw [if_neg hc] at h
      rcases hgp : get_parent n tbl e with err | p <;> rw [hgp] at h
      · cases h
      · rcases ih tbl p (acc ++ [e]) l h with ⟨rest', hl, hprops, hlast, _⟩
        have hpp := get_parent_ok n tbl e p hgp
        refine ⟨p :: rest', ?_, ?_, ?_, ?_⟩
        · rw [hl, List.append_assoc]
          rfl
        · intro x hx
          rcases List.mem_cons.mp hx with rfl | hx2
          · exact hpp
          · exact hprops x hx2
        · rcases hlast with ⟨c, hcl, hcc⟩
          exact ⟨c, by rw [List.getLast?_cons_cons]; exact hcl, hcc⟩
        · intro _
          simp

/-- Claim C7: whenever `get_parents` succeeds on a port or power-supply
entity (as it does on every well-formed, chassis-rooted table), the returned
chain starts with the entity itself, ends with an entity of class chassis,
and has length at least 2. -/
theorem C7_chain_shape (fuel : Nat) (tbl : EntTable) (e : Entity) (l : List Entity)
    (hcls : e.entPhysicalClass = EClass.port ∨ e.entPhysicalClass = EClass.powerSupply)
    (h : get_parents fuel tbl e [] = Except.ok l) :
    l.head? = some e ∧
    (∃ c, l.getLast? = some c ∧ c.entPhysicalClass = EClass.chassis) ∧
    2 ≤ l.length := by
  rcases get_parents_ok fuel tbl e [] l h with ⟨rest, hl, _, hlast, hne⟩
  have hnc : e.entPhysicalClass ≠ EClass.chassis := by
    rcases hcls with h1 | h1 <;> rw [h1] <;> intro hh <;> cases hh
  have hrest := hne hnc
  rw [List.nil_append] at hl
  subst hl
  refine ⟨rfl, hlast, ?_⟩
  have hpos : 0 < rest.length := List.length_pos.mpr hrest
  simp only [List.length_cons]
  omega

/-- Witness for C7 on the chassis–module–port fixture. -/
theorem C7_chain_shape_witness :
    (entC7p.entPhysicalClass = EClass.port ∨ entC7p.entPhysicalClass = EClass.powerSupply) ∧
    get_parents 10 tblC7 entC7p [] = Except.ok [entC7p, entC7m, entC7c] ∧
    ([entC7p, entC7m, entC7c].head? = some entC7p ∧
      (∃ c, ([entC7p, entC7m, entC7c] : List Entity).getLast? = some c ∧
        c.entPhysicalClass = EClass.chassis) ∧
      2 ≤ ([entC7p, entC7m, entC7c] : List Entity).length) :=
  ⟨Or.inl rfl, rfl, C7_chain_shape 10 tblC7 entC7p [entC7p, entC7m, entC7c] (Or.inl rfl) rfl⟩

/-- Claim C8: `get_hierarchy` is idempotent over the cached table snapshot —
a successful call determines the result of the next call on the resulting
object state: the same map (and the same state) is returned again. -/
theorem C8_idempotent (fuel : Nat) (s : AutoLoadState) (hm : HMap) (s1 : AutoLoadState)
    (h : get_hierarchy fuel s = Except.ok (hm, s1)) :
    get_hierarchy fuel s1 = Except.ok (hm, s1) := by
  simp only [get_hierarchy] at h ⊢
  rcases hc : get_hierarchy_core fuel (entPhysicalTable s).1 with err | h0 <;> rw [hc] at h
  · cases h
  · cases h
    rw [entPhysicalTable_idem, hc]

/-- Witness for C8 on the chassis–module–port fixture (the hierarchy is the
spec's own worked example `{1: {2}, 2: {3}}`). -/
theorem C8_idempotent_witness :
    get_hierarchy 10 (initState devC8) = Except.ok ([(1, [2]), (2, [3])], stC8) ∧
    get_hierarchy 10 stC8 = Except.ok ([(1, [2]), (2, [3])], stC8) :=
  ⟨rfl, C8_idempotent 10 (initState devC8) [(1, [2]), (2, [3])] stC8 rfl⟩

lemma getD_mem {α : Type} : ∀ (l : List α) (i : Nat) (d : α), i < l.length → l.getD i d ∈ l := by
  intro l
  induction l with
  | nil => intro i d h; cases h
  | cons a rest ih =>
    intro i d h
    cases i with
    | zero => exact List.mem_cons_self a rest
    | succ i' =>
      have : rest.getD i' d ∈ rest := ih i' d (by simpa using h)
      exact List.mem_cons_of_mem a this

lemma mem_keys_alSet {α : Type} (l : List (Nat × α)) (k : Nat) (v : α) (x : Nat)
    (h : x ∈ (alSet l k v).map Prod.fst) : x ∈ l.map Prod.fst ∨ x = k := by
  unfold alSet at h
  by_cases hs : (alGet l k).isSome
  · rw [if_pos hs] at h
    rcases List.mem_map.mp h with ⟨pr, hpr, hx⟩
    rcases List.mem_map.mp hpr with ⟨pr0, hpr0, hpr0x⟩
    by_cases hbk : (pr0.1 == k) = true
    · rw [if_pos hbk] at hpr0x
      right
      rw [← hx, ← hpr0x]
    · rw [if_neg hbk] at hpr0x
      left
      exact List.mem_map.mpr ⟨pr0, hpr0, by rw [hpr0x, hx]⟩
  · rw [if_neg hs, List.map_append] at h
    rcases List.mem_append.mp h with h1 | h1
    · exact Or.inl h1
    · exact Or.inr (List.eq_of_mem_singleton h1)

lemma mem_keys_hmapAppend (h : HMap) (k i x : Nat)
    (hx : x ∈ (hmapAppend h k i).map Prod.fst) : x ∈ h.map Prod.fst ∨ x = k := by
  unfold hmapAppend at hx
  cases hg : alGet h k <;> rw [hg] at hx
  · rw [List.map_append] at hx
    rcases List.mem_append.mp hx with h1 | h1
    · exact Or.inl h1
    · exact Or.inr (List.eq_of_mem_singleton h1)
  · exact mem_keys_alSet _ _ _ _ hx

lemma mem_keys_loop_pairs (ps : List Entity) : ∀ (q : Nat) (h : HMap) (x : Nat),
    x ∈ (loop_pairs ps h q).map Prod.fst →
    x ∈ h.map Prod.fst ∨ ∃ j, 1 ≤ j ∧ j ≤ q ∧ x = (ps.getD j dfltEntity).suffix := by
  intro q
  induction q with
  | zero => intro h x hx; exact Or.inl hx
  | succ q ih =>
    intro h x hx
    rcases ih _ x hx with h1 | ⟨j, hj1, hj2, hj3⟩
    · rcases mem_keys_hmapAppend _ _ _ _ h1 with h2 | h2
      · exact Or.inl h2
      · exact Or.inr ⟨q + 1, by omega, Nat.le_refl _, h2⟩
    · exact Or.inr ⟨j, hj1, by omega, hj3⟩

lemma hier_leaves_keys (fuel : Nat) (tbl : EntTable) :
    ∀ (leaves : List Entity) (h0 hr : HMap),
      hier_leaves_loop fuel tbl leaves h0 = Except.ok hr →
      ∀ x ∈ hr.map Prod.fst, x ∈ h0.map Prod.fst ∨
        ∃ jj ent, (jj, ent) ∈ tbl ∧ ent.suffix = x ∧
          (ent.entPhysicalClass = EClass.module ∨ ent.entPhysicalClass = EClass.chassis) := by
  intro leaves
  induction leaves with
  | nil =>
    intro h0 hr h x hx
    cases h
    exact Or.inl hx
  | cons e rest ih =>
    intro h0 hr h x hx
    simp only [hier_leaves_loop] at h
    rcases hgp : get_parents fuel tbl e [] with err | ps <;> rw [hgp] at h
    · cases h
    · rcases ih _ hr h x hx with h1 | good
      · rcases get_parents_ok fuel tbl e [] ps hgp with ⟨restc, hps, hprops, _, _⟩
        rw [List.nil_append] at hps
        subst hps
        rcases mem_keys_loop_pairs _ _ _ _ h1 with h2 | ⟨j, hj1, hj2, hj3⟩
        · exact Or.inl h2
        · rcases j with _ | j'
          · exact (Nat.not_succ_le_zero 0 hj1).elim
          · have hlen : j' < restc.length := by
              simp only [List.length_cons] at hj2
              omega
            have hmem := getD_mem restc j' dfltEntity hlen
            have hx2 : (e :: restc).getD (j' + 1) dfltEntity = restc.getD j' dfltEntity := rfl
            rw [hx2] at hj3
            rcases hprops _ hmem with ⟨⟨jj, hjj⟩, hcls⟩
            exact Or.inr ⟨jj, restc.getD j' dfltEntity, hjj, hj3.symm, hcls⟩
      · exact Or.inr good

lemma nodup_key_unique {α : Type} : ∀ (l : List (Nat × α)), (l.map Prod.fst).Nodup →
    ∀ (k : Nat) (a b : α), (k, a) ∈ l → (k, b) ∈ l → a = b := by
  intro l
  induction l with
  | nil => intro _ k a b ha; cases ha
  | cons pr rest ih =>
    intro hnd k a b ha hb
    rw [List.map_cons, List.nodup_cons] at hnd
    rcases List.mem_cons.mp ha with ha1 | ha2 <;> rcases List.mem_cons.mp hb with hb1 | hb2
    · have heq := ha1.trans hb1.symm
      cases heq
      rfl
    · exfalso
      apply hnd.1
      rw [← ha1]
      exact List.mem_map.mpr ⟨(k, b), hb2, rfl⟩
    · exfalso
      apply hnd.1
      rw [← hb1]
      exact List.mem_map.mpr ⟨(k, a), ha2, rfl⟩
    · exact ih hnd.2 k a b ha2 hb2

lemma dedup_map_keys (h : HMap) :
    (h.map (fun pr => (pr.1, pr.2.dedup))).map Prod.fst = h.map Prod.fst := by
  induction h with
  | nil => rfl
  | cons pr rest ih => simp [ih]

/-- Claim C10: on a table with unique, self-consistent indices, no index of a
port or power-supply entity is ever a key of the map `get_hierarchy` builds:
every recorded parent key is the index of a module or chassis entity of the
table. -/
theorem C10_leaves_never_keys (fuel : Nat) (tbl : EntTable) (hm : HMap)
    (hnd : (tbl.map Prod.fst).Nodup)
    (hcons : ∀ pr ∈ tbl, (Prod.snd pr).suffix = pr.1)
    (h : get_hierarchy_core fuel tbl = Except.ok hm) :
    ∀ pr ∈ tbl, ((Prod.snd pr).entPhysicalClass = EClass.port ∨
        (Prod.snd pr).entPhysicalClass = EClass.powerSupply) →
      pr.1 ∉ hm.map Prod.fst := by
  intro pr hpr hcls hx
  rcases pr with ⟨k0, v0⟩
  dsimp only at hpr hcls hx
  simp only [get_hierarchy_core] at h
  rcases hll : hier_leaves_loop fuel tbl
      ((filter_by_class tbl EClass.port ++ filter_by_class tbl EClass.powerSupply).map Prod.snd)
      [] with err | h0 <;> rw [hll] at h
  · cases h
  · cases h
    rw [dedup_map_keys] at hx
    rcases hier_leaves_keys fuel tbl _ [] h0 hll k0 hx with h1 | ⟨jj, ent, hent, hsfx, hcls2⟩
    · cases h1
    · have hjj : ent.suffix = jj := hcons (jj, ent) hent
      have hj2 : jj = k0 := by rw [← hjj, hsfx]
      subst hj2
      have heq : ent = v0 := nodup_key_unique tbl hnd jj ent v0 hent hpr
      rw [heq] at hcls2
      rcases hcls with hc | hc <;> rcases hcls2 with hc2 | hc2 <;> rw [hc] at hc2 <;> cases hc2

/-- Witness for C10: on the chassis–module–port–powerSupply fixture the built
hierarchy is `{1: [2, 4], 2: [3]}`, and neither the port index 3 nor the
power-supply index 4 is among its keys. -/
theorem C10_leaves_never_keys_witness :
    get_hierarchy_core 10 tblC10 = Except.ok [(1, [2, 4]), (2, [3])] ∧
    (3 : Nat) ∉ ([(1, [2, 4]), (2, [3])] : HMap).map Prod.fst ∧
    (4 : Nat) ∉ ([(1, [2, 4]), (2, [3])] : HMap).map Prod.fst :=
  ⟨rfl,
   C10_leaves_never_keys 10 tblC10 [(1, [2, 4]), (2, [3])] (by decide) (by decide) rfl
     (3, entC10p) (by decide) (Or.inl rfl),
   C10_leaves_never_keys 10 tblC10 [(1, [2, 4]), (2, [3])] (by decide) (by decide) rfl
     (4, entC10s) (by decide) (Or.inr rfl)⟩

/-- Claim C9: `get_parents` on an entity of class chassis returns the
one-element chain holding only that entity, for any table whatsoever (in
particular the entity's containment reference is never consulted: the result
does not depend on `tbl` or on `e.entPhysicalContainedIn`). -/
theorem C9_chassis_is_own_chain (tbl : EntTable) (e : Entity) (n : Nat)
    (h : e.entPhysicalClass = EClass.chassis) :
    get_parents (n + 1) tbl e [] = Except.ok [e] := by
  simp [get_parents, h]

/-- Witness for C9 at a concrete chassis entity whose containment reference
(index 77) is dangling in the empty table. -/
theorem C9_chassis_is_own_chain_witness :
    entC9.entPhysicalClass = EClass.chassis ∧ get_parents 1 [] entC9 [] = Except.ok [entC9] :=
  ⟨rfl, C9_chassis_is_own_chain [] entC9 0 rfl⟩

/-! ## Key tracking through the descriptor-based mapping (claim C5) -/

lemma map_fst_update {α : Type} (k : Nat) (v : α) :
    ∀ l : List (Nat × α),
      (l.map (fun pr => if pr.1 == k then (k, v) else pr)).map Prod.fst = l.map Prod.fst := by
  intro l
  induction l with
  | nil => rfl
  | cons pr rest ih =>
    simp only [List.map_cons, ih]
    by_cases hb : (pr.1 == k) = true
    · rw [if_pos hb]
      have : k = pr.1 := (eq_of_beq hb).symm
      rw [this]
    · rw [if_neg hb]

lemma alGet_isSome_mem_keys {α : Type} (l : List (Nat × α)) (k : Nat)
    (h : (alGet l k).isSome = true) : k ∈ l.map Prod.fst := by
  unfold alGet at h
  rcases hf : l.find? (fun pr => pr.1 == k) with _ | pr0 <;> rw [hf] at h
  · cases h
  · have hmem := List.mem_of_find?_eq_some hf
    have hp := List.find?_some hf
    have hk : pr0.1 = k := eq_of_beq (by simpa using hp)
    rw [← hk]
    exact List.mem_map.mpr ⟨pr0, hmem, rfl⟩

lemma alSet_keys_mono {α : Type} (l : List (Nat × α)) (k : Nat) (v : α) (x : Nat)
    (h : x ∈ l.map Prod.fst) : x ∈ (alSet l k v).map Prod.fst := by
  unfold alSet
  by_cases hs : (alGet l k).isSome = true
  · rw [if_pos hs, map_fst_update]
    exact h
  · rw [if_neg hs, List.map_append]
    exact List.mem_append.mpr (Or.inl h)

lemma alSet_key_self {α : Type} (l : List (Nat × α)) (k : Nat) (v : α) :
    k ∈ (alSet l k v).map Prod.fst := by
  unfold alSet
  by_cases hs : (alGet l k).isSome = true
  · rw [if_pos hs, map_fst_update]
    exact alGet_isSome_mem_keys l k hs
  · rw [if_neg hs, List.map_append]
    exact List.mem_append.mpr (Or.inr (List.mem_singleton.mpr rfl))

lemma mem_keys_scan (m p : List Char) (idx : Nat) :
    ∀ (ifs : List IfEntry) (mp : List (Nat × Nat)) (x : Nat),
      x ∈ (scan_ifaces m p idx ifs mp).map Prod.fst →
      x ∈ mp.map Prod.fst ∨
        (x = idx ∧ ∃ itf ∈ ifs, re_search (m ++ '/' :: p) itf.ifDescr = true) := by
  intro ifs
  induction ifs with
  | nil => intro mp x hx; exact Or.inl hx
  | cons itf rest ih =>
    intro mp x hx
    rcases ih _ x hx with h1 | ⟨rfl, itf2, hmem2, hm2⟩
    · by_cases hm : re_search (m ++ '/' :: p) itf.ifDescr = true
      · rw [if_pos hm] at h1
        rcases mem_keys_alSet _ _ _ _ h1 with h2 | rfl
        · exact Or.inl h2
        · exact Or.inr ⟨rfl, itf, List.mem_cons_self itf rest, hm⟩
      · rw [if_neg hm] at h1
        exact Or.inl h1
    · exact Or.inr ⟨rfl, itf2, List.mem_cons_of_mem itf hmem2, hm2⟩

lemma keys_scan_mono (m p : List Char) (idx : Nat) :
    ∀ (ifs : List IfEntry) (mp : List (Nat × Nat)) (x : Nat),
      x ∈ mp.map Prod.fst → x ∈ (scan_ifaces m p idx ifs mp).map Prod.fst := by
  intro ifs
  induction ifs with
  | nil => intro mp x hx; exact hx
  | cons itf rest ih =>
    intro mp x hx
    show x ∈ (scan_ifaces m p idx rest
      (if re_search (m ++ '/' :: p) itf.ifDescr then alSet mp idx itf.suffix else mp)).map Prod.fst
    apply ih
    by_cases hm : re_search (m ++ '/' :: p) itf.ifDescr = true
    · rw [if_pos hm]
      exact alSet_keys_mono _ _ _ _ hx
    · rw [if_neg hm]
      exact hx

lemma keys_scan_match (m p : List Char) (idx : Nat) :
    ∀ (ifs : List IfEntry) (mp : List (Nat × Nat)),
      (∃ itf ∈ ifs, re_search (m ++ '/' :: p) itf.ifDescr = true) →
      idx ∈ (scan_ifaces m p idx ifs mp).map Prod.fst := by
  intro ifs
  induction ifs with
  | nil =>
    intro mp hex
    rcases hex with ⟨itf, hmem, _⟩
    cases hmem
  | cons itf rest ih =>
    intro mp hex
    rcases hex with ⟨itf2, hmem, hm2⟩
    rcases List.mem_cons.mp hmem with rfl | hmem2
    · show idx ∈ (scan_ifaces m p idx rest
        (if re_search (m ++ '/' :: p) itf2.ifDescr then alSet mp idx itf2.suffix else mp)).map Prod.fst
      rw [if_pos hm2]
      exact keys_scan_mono m p idx rest _ idx (alSet_key_self _ _ _)
    · exact ih _ ⟨itf2, hmem2, hm2⟩

lemma descr_loop_ok :
    ∀ (ports : List Entity) (acc : List (Nat × Nat) × AutoLoadState),
      (∀ e ∈ ports, ∃ m p, findall_d e.entPhysicalDescr = [m, p]) →
      ∃ mp s', descr_ports_loop ports acc = Except.ok (mp, s') := by
  intro ports
  induction ports with
  | nil => intro acc _; exact ⟨acc.1, acc.2, rfl⟩
  | cons port rest ih =>
    intro acc h
    rcases h port (List.mem_cons_self port rest) with ⟨m, p, hfa⟩
    simp only [descr_ports_loop, hfa]
    exact ih _ (fun e he => h e (List.mem_cons_of_mem port he))

lemma descr_loop_keys :
    ∀ (ports : List Entity) (acc : List (Nat × Nat) × AutoLoadState)
      (mp : List (Nat × Nat)) (s' : AutoLoadState),
      descr_ports_loop ports acc = Except.ok (mp, s') →
      ∀ x ∈ mp.map Prod.fst,
        x ∈ acc.1.map Prod.fst ∨
          ∃ e ∈ ports, ∃ m p, findall_d e.entPhysicalDescr = [m, p] ∧ x = e.suffix ∧
            ∃ itf ∈ (ifSnapshot acc.2).map Prod.snd,
              re_search (m ++ '/' :: p) itf.ifDescr = true := by
  intro ports
  induction ports with
  | nil =>
    intro acc mp s' h x hx
    cases h
    exact Or.inl hx
  | cons port rest ih =>
    intro acc mp s' h x hx
    rcases hfa : findall_d port.entPhysicalDescr with _ | ⟨m, _ | ⟨p, _ | ⟨y, ys⟩⟩⟩ <;>
      simp only [descr_ports_loop, hfa] at h
    · cases h
    · cases h
    · rcases ih _ mp s' h x hx with h1 | ⟨e, he, m2, p2, hfa2, hxs, itf, hitf, hm2⟩
      · rcases mem_keys_scan m p port.suffix _ _ x h1 with h2 | ⟨rfl, itf, hitf, hm⟩
        · exact Or.inl h2
        · refine Or.inr ⟨port, List.mem_cons_self port rest, m, p, hfa, rfl, itf, ?_, hm⟩
          rw [← ifTable_fst]
          exact hitf
      · refine Or.inr ⟨e, List.mem_cons_of_mem port he, m2, p2, hfa2, hxs, itf, ?_, hm2⟩
        rw [← ifTable_snd_ifSnapshot]
        exact hitf
    · cases h

lemma descr_loop_mono :
    ∀ (ports : List Entity) (acc : List (Nat × Nat) × AutoLoadState)
      (mp : List (Nat × Nat)) (s' : AutoLoadState),
      descr_ports_loop ports acc = Except.ok (mp, s') →
      ∀ x ∈ acc.1.map Prod.fst, x ∈ mp.map Prod.fst := by
  intro ports
  induction ports with
  | nil =>
    intro acc mp s' h x hx
    cases h
    exact hx
  | cons port rest ih =>
    intro acc mp s' h x hx
    rcases hfa : findall_d port.entPhysicalDescr with _ | ⟨m, _ | ⟨p, _ | ⟨y, ys⟩⟩⟩ <;>
      simp only [descr_ports_loop, hfa] at h
    · cases h
    · cases h
    · exact ih _ mp s' h x (keys_scan_mono m p port.suffix _ _ x hx)
    · cases h

lemma descr_loop_match :
    ∀ (ports : List Entity) (acc : List (Nat × Nat) × AutoLoadState)
      (mp : List (Nat × Nat)) (s' : AutoLoadState),
      descr_ports_loop ports acc = Except.ok (mp, s') →
      ∀ e ∈ ports, ∀ m p, findall_d e.entPhysicalDescr = [m, p] →
        (∃ itf ∈ (ifSnapshot acc.2).map Prod.snd,
          re_search (m ++ '/' :: p) itf.ifDescr = true) →
        e.suffix ∈ mp.map Prod.fst := by
  intro ports
  induction ports with
  | nil =>
    intro acc mp s' h e he
    cases he
  | cons port rest ih =>
    intro acc mp s' h e he m p hfa hex
    rcases hfa0 : findall_d port.entPhysicalDescr with _ | ⟨m0, _ | ⟨p0, _ | ⟨y, ys⟩⟩⟩ <;>
      simp only [descr_ports_loop, hfa0] at h
    · cases h
    · cases h
    · rcases List.mem_cons.mp he with rfl | hmem
      · have heq : [m0, p0] = [m, p] := hfa0.symm.trans hfa
        cases heq
        apply descr_loop_mono rest _ mp s' h
        apply keys_scan_match
        rw [ifTable_fst]
        exact hex
      · refine ih _ mp s' h e hmem m p hfa ?_
        rw [ifTable_snd_ifSnapshot]
        exact hex
    · cases h

lemma alias_ports_loop_keyerr (aT : List (Nat × String)) :
    ∀ (ks : List Nat) (mp : List (Nat × Nat)),
      (∀ k ∈ ks, ∀ ident, alGet aT k = some ident →
        ∃ n, pyIntDigits (lastSplitDot ident) = Except.ok n) →
      (∃ k ∈ ks, alGet aT k = none) →
      alias_ports_loop aT ks mp = Except.error PyErr.keyError := by
  intro ks
  induction ks with
  | nil =>
    intro mp _ hex
    rcases hex with ⟨k, hk, _⟩
    cases hk
  | cons k0 rest ih =>
    intro mp hparse hex
    cases hga : alGet aT k0 with
    | none => simp [alias_ports_loop, hga]
    | some ident =>
      rcases hparse k0 (List.mem_cons_self k0 rest) ident hga with ⟨n, hn⟩
      simp only [alias_ports_loop, hga, hn]
      apply ih
      · intro k hk ident2 hident2
        exact hparse k (List.mem_cons_of_mem k0 hk) ident2 hident2
      · rcases hex with ⟨k, hk, hnone⟩
        rcases List.mem_cons.mp hk with rfl | hmem
        · rw [hga] at hnone
          cases hnone
        · exact ⟨k, hmem, hnone⟩

/-- Claim C5 (amended): the omission policy holds only for the descriptor
fallback, where it is truly per port — (1) when every port description is
well formed the mapping completes without error, no matter how many ports
lack a matching interface; (2) a port whose tokens match some interface is
recorded under its index; (3) a port whose tokens match no interface is
simply absent (its index is a key only if another port shares that index) —
while (4) under alias-based mapping a port with no entry in the alias table
makes `get_mapping` raise a KeyError (stated for runs whose present alias
identifiers have numeric tails, so no earlier ValueError fires first). -/
theorem C5_no_match_omission_split :
    (∀ s : AutoLoadState,
      (∀ e ∈ (filter_by_class (entSnapshot s) EClass.port).map Prod.snd,
          ∃ m p, findall_d e.entPhysicalDescr = [m, p]) →
      ∃ mp s', descr_based_mapping s = Except.ok (mp, s'))
  ∧ (∀ (s : AutoLoadState) (mp : List (Nat × Nat)) (s' : AutoLoadState),
      descr_based_mapping s = Except.ok (mp, s') →
      ∀ e ∈ (filter_by_class (entSnapshot s) EClass.port).map Prod.snd,
        ∀ m p, findall_d e.entPhysicalDescr = [m, p] →
        (∃ itf ∈ (ifSnapshot s).map Prod.snd, re_search (m ++ '/' :: p) itf.ifDescr = true) →
        e.suffix ∈ mp.map Prod.fst)
  ∧ (∀ (s : AutoLoadState) (mp : List (Nat × Nat)) (s' : AutoLoadState),
      descr_based_mapping s = Except.ok (mp, s') →
      ∀ e ∈ (filter_by_class (entSnapshot s) EClass.port).map Prod.snd,
        ∀ m p, findall_d e.entPhysicalDescr = [m, p] →
        (∀ itf ∈ (ifSnapshot s).map Prod.snd, re_search (m ++ '/' :: p) itf.ifDescr = false) →
        (∀ e2 ∈ (filter_by_class (entSnapshot s) EClass.port).map Prod.snd,
          e2.suffix = e.suffix → e2 = e) →
        e.suffix ∉ mp.map Prod.fst)
  ∧ (∀ s : AutoLoadState, s.snmp.entAliasWalk ≠ [] →
      (∀ k ∈ (filter_by_class (entSnapshot s) EClass.port).map Prod.fst,
        ∀ ident, alGet s.snmp.entAliasWalk k = some ident →
          ∃ n, pyIntDigits (lastSplitDot ident) = Except.ok n) →
      (∃ k ∈ (filter_by_class (entSnapshot s) EClass.port).map Prod.fst,
          alGet s.snmp.entAliasWalk k = none) →
      get_mapping s = Except.error PyErr.keyError) := by
  refine ⟨?_, ?_, ?_, ?_⟩
  · intro s h
    show ∃ mp s', descr_ports_loop
      ((filter_by_class (entPhysicalTable s).1 EClass.port).map Prod.snd)
      ([], (entPhysicalTable s).2) = Except.ok (mp, s')
    rw [entPhysicalTable_fst]
    exact descr_loop_ok _ _ h
  · intro s mp s' h e he m p hfa hex
    replace h : descr_ports_loop
        ((filter_by_class (entPhysicalTable s).1 EClass.port).map Prod.snd)
        ([], (entPhysicalTable s).2) = Except.ok (mp, s') := h
    rw [entPhysicalTable_fst] at h
    refine descr_loop_match _ _ mp s' h e he m p hfa ?_
    rw [entPhysicalTable_snd_ifSnapshot]
    exact hex
  · intro s mp s' h e he m p hfa hnm huniq hmemk
    replace h : descr_ports_loop
        ((filter_by_class (entPhysicalTable s).1 EClass.port).map Prod.snd)
        ([], (entPhysicalTable s).2) = Except.ok (mp, s') := h
    rw [entPhysicalTable_fst] at h
    rcases descr_loop_keys _ _ mp s' h e.suffix hmemk with h1 | ⟨e2, he2, m2, p2, hfa2, hxs, itf, hitf, hm⟩
    · simp at h1
    · have he2e : e2 = e := huniq e2 he2 hxs.symm
      subst he2e
      have heq : [m2, p2] = [m, p] := hfa2.symm.trans hfa
      cases heq
      rw [entPhysicalTable_snd_ifSnapshot] at hitf
      have hfalse := hnm itf hitf
      rw [hfalse] at hm
      exact Bool.false_ne_true hm
  · intro s hne hparse hex
    have hie : s.snmp.entAliasWalk.isEmpty = false := by
      simp [List.isEmpty_iff, hne]
    have herr := alias_ports_loop_keyerr s.snmp.entAliasWalk
        ((filter_by_class (entPhysicalTable { s with walks := s.walks ++ [aliasTableName] }).1
          EClass.port).map Prod.fst) []
        (by rw [entPhysicalTable_fst]; exact hparse)
        (by rw [entPhysicalTable_fst]; exact hex)
    simp only [get_mapping, hie, Bool.false_eq_true, if_false, herr]

/-- Witness for the amended C5 on a two-port device: port 3 (tokens 1, 2)
matches interface 10 and is recorded, port 7 (tokens 8, 9) matches nothing
and is absent, and the run completes without error; the alias side raises its
KeyError on the device of the counterexample. -/
theorem C5_no_match_omission_split_witness :
    (∃ mp s', descr_based_mapping (initState devC5x) = Except.ok (mp, s'))
  ∧ (3 : Nat) ∈ ([(3, 10)] : List (Nat × Nat)).map Prod.fst
  ∧ (7 : Nat) ∉ ([(3, 10)] : List (Nat × Nat)).map Prod.fst
  ∧ get_mapping (initState devC5) = Except.error PyErr.keyError := by
  refine ⟨?_, ?_, ?_, ?_⟩
  · apply C5_no_match_omission_split.1
    intro e he
    have hl : (filter_by_class (entSnapshot (initState devC5x)) EClass.port).map Prod.snd =
        [⟨3, EClass.port, 1, "1/2"⟩, ⟨7, EClass.port, 1, "8/9"⟩] := rfl
    rw [hl] at he
    rcases List.mem_cons.mp he with rfl | he2
    · exact ⟨['1'], ['2'], rfl⟩
    · rw [List.eq_of_mem_singleton he2]
      exact ⟨['8'], ['9'], rfl⟩
  · exact C5_no_match_omission_split.2.1 (initState devC5x) [(3, 10)] stC5x rfl
      ⟨3, EClass.port, 1, "1/2"⟩ (by decide) ['1'] ['2'] rfl
      ⟨⟨10, "Gi1/2"⟩, by decide, by decide⟩
  · exact C5_no_match_omission_split.2.2.1 (initState devC5x) [(3, 10)] stC5x rfl
      ⟨7, EClass.port, 1, "8/9"⟩ (by decide) ['8'] ['9'] rfl (by decide) (by decide)
  · refine C5_no_match_omission_split.2.2.2 (initState devC5) (by decide) ?_ (by decide)
    intro k hk ident hident
    have hl : (filter_by_class (entSnapshot (initState devC5)) EClass.port).map Prod.fst =
        [3] := rfl
    rw [hl] at hk
    have hk3 := List.eq_of_mem_singleton hk
    subst hk3
    replace hident : (none : Option String) = some ident := hident
    exact Option.noConfusion hident

end SnmpAutoload
